import Mathlib

/-!
Shallow embedding of the clip-timeline model and export pipeline of
`src/vidcutter.py` (class `VidCutter`), restricted to the state and operations
the specification's claims are about:

* the ordered clip list `self.clipTimes` with the `self.inCut` flag and the
  `saveAction` enablement recomputed by `renderTimes`;
* the timeline mutations `cutStart`, `cutEnd`, `moveItemUp`, `moveItemDown`,
  `removeItem` and the drag handler `syncClipList`;
* the time conversion `deltaToQTime` and `QTime.toString('hh:mm:ss')`;
* the export pipeline `cutVideo` / `joinVideos`, modelled as the sequence of
  backend and filesystem calls it issues, together with a small filesystem
  semantics `runEvents` for interpreting that sequence.

Python's `/` on integers is true (float) division; it is modelled here as
exact division in `ℚ`.  That idealization does *not* coincide with the
source's binary64 arithmetic everywhere — see the caveat at `deltaToQTime` —
so every claim stated about `deltaToQTime` is confined to inputs where each
float operation of the source is either exact or lands safely inside a
truncation interval, and the millisecond lossiness of the real computation is
itself reported as a finding rather than papered over.
Qt's `QTime` stores integer hour/minute/second/millisecond components and the
PyQt binding truncates the float constructor arguments, modelled by `Int.floor`
(the arguments are non-negative).  UI-only effects (widgets, icons, cursors,
thumbnails from `captureImage`, dialogs) are not modelled; where a Qt action's
*enablement* gates whether an operation can run at all, the gate is part of the
model and is noted at the definition it guards.
-/

namespace Vidcutter

/-- Python's float modulo `x % y` for `y > 0`: `x - y * floor (x / y)`. -/
def pyFmod (x y : ℚ) : ℚ := x - y * (⌊x / y⌋ : ℤ)

/-- A `QTime` value as constructed by the source: the four integer components
handed to the `QTime(h, m, s, ms)` constructor. -/
structure QTime where
  h : ℕ
  mnt : ℕ
  s : ℕ
  ms : ℕ
  deriving DecidableEq, Repr

/-- Total milliseconds denoted by the components (`QTime::msecsSinceStartOfDay`).
This is also how the claim "components recombine to `m`" reads. -/
def QTime.msecsSinceStartOfDay (t : QTime) : ℕ :=
  t.h * 3600000 + t.mnt * 60000 + t.s * 1000 + t.ms

/-- `QTime::msecsTo`: signed millisecond distance from `a` to `b`. -/
def QTime.msecsTo (a b : QTime) : ℤ :=
  (b.msecsSinceStartOfDay : ℤ) - (a.msecsSinceStartOfDay : ℤ)

/-- `VidCutter.deltaToQTime` (vidcutter.py:468-471), transcribed literally:

    secs = millisecs / 1000
    return QTime((secs / 3600) % 60, (secs / 60) % 60, secs % 60, (secs * 1000) % 1000)

with `/` exact rational division standing in for Python's float division and
`Int.floor` for the binding's float-to-int truncation of the non-negative
constructor arguments.

Caveat — where this idealization matches the source's binary64 arithmetic.
The hour/minute/second slots always match below 60 hours: their quotients sit
at least `1/3600000` away from the next integer unless the division is exact,
far outside the accumulated rounding error (below `2^-46` at these
magnitudes).  The *millisecond* slot matches only when `millisecs / 1000` is
exactly representable — in particular for every multiple of 500 ms below one
day (all timeline positions evaluated in this file) and at 216000000, where
every intermediate value is an integer below `2^53`.  It does not match in
general: binary64 computes e.g. `(1001 / 1000) * 1000` as
`1000.99999999999994543…`, whose `% 1000` truncates to `0` where exact
arithmetic gives `1`, so the source loses the millisecond slot (one low) on
roughly 0.7% of inputs below 60 hours, starting at `millisecs = 1001`.  Every
theorem below that depends on the numeric value of a `deltaToQTime` result
does so only at inputs in the matching set (the structural timeline claims
never inspect the components), and the lossiness just described is recorded
as the finding on the round-trip claim instead of being idealized away. -/
def deltaToQTime (millisecs : ℕ) : QTime :=
  let secs : ℚ := (millisecs : ℚ) / 1000
  ⟨(⌊pyFmod (secs / 3600) 60⌋).toNat, (⌊pyFmod (secs / 60) 60⌋).toNat,
   (⌊pyFmod secs 60⌋).toNat, (⌊pyFmod (secs * 1000) 1000⌋).toNat⟩

/-- Two-digit zero padding: both Qt's `hh`/`mm`/`ss` format fields and the
`'{0:0>2}'.format(index)` suffix in `cutVideo`. -/
def pad2 (n : ℕ) : String := if n < 10 then "0" ++ toString n else toString n

/-- `QTime.toString('hh:mm:ss')`, the process-wide `self.timeformat`: the
millisecond component is not rendered. -/
def timeToString (t : QTime) : String :=
  pad2 t.h ++ ":" ++ pad2 t.mnt ++ ":" ++ pad2 t.s

/-- One entry of `self.clipTimes`.  In the source an entry is the list
`[start, end, thumbnail]` where `end` is the string `''` until the clip is
closed (so "has an end" is tested as `type(item[1]) is QTime`); the cosmetic
`thumbnail` (item[2], best-effort `captureImage`) carries no behaviour and is
omitted. -/
structure Clip where
  start : QTime
  stop : Option QTime
  deriving DecidableEq, Repr

/-- The mutable state the claims touch: the clip list, the `self.inCut` flag
and the `saveAction` enablement (the source's only "is exportable" signal). -/
structure CutterState where
  clipTimes : List Clip
  inCut : Bool
  saveEnabled : Bool
  deriving DecidableEq, Repr

/-- State after construction / `initMediaControls`: empty list, `inCut = False`,
save action disabled (vidcutter.py:67-68, 202, 372). -/
def initialState : CutterState := ⟨[], false, false⟩

/-- Error kinds, using the specification's names for the source's refusal
paths: a disabled action (`InvalidState`), the rejected end marker
(`InvalidRange`), a disabled move/remove (`OutOfRange`), a disabled save
action (`NotReady`), and the `TypeError` Python raises when `msecsTo` is
applied to a clip whose end is still the string `''`. -/
inductive Err where
  | invalidState
  | invalidRange
  | outOfRange
  | notReady
  | typeError
  deriving DecidableEq, Repr

/-- `type(self.clipTimes[0][1]) is QTime`: the first clip exists and is closed. -/
def firstClipClosed (s : CutterState) : Bool :=
  match s.clipTimes with
  | [] => false
  | c :: _ => c.stop.isSome

/-- The `saveAction` enablement effect of `renderTimes` (vidcutter.py:463-466):

    if len(self.clipTimes) and not self.inCut: self.saveAction.setEnabled(True)
    if len(self.clipTimes) == 0 or not type(self.clipTimes[0][1]) is QTime:
        self.saveAction.setEnabled(False)

Note the conditional writes: when neither condition fires (a cut is active and
the first clip is closed) the previous enablement is kept.  The list-widget
rebuild and slider cut-mode in `renderTimes` are presentation only. -/
def renderTimes (s : CutterState) : CutterState :=
  let e := if s.clipTimes ≠ [] ∧ s.inCut = false then true else s.saveEnabled
  let e := if s.clipTimes = [] ∨ firstClipClosed s = false then false else e
  { s with saveEnabled := e }

/-- `VidCutter.cutStart` (vidcutter.py:413-419).  The method body appends
unconditionally; it is reachable only while `cutStartAction` is enabled, and
the action wiring keeps that enablement equal to `not inCut` (disabled at 415
when a cut begins, re-enabled at 428 when it closes; dispatch checks
`isEnabled`, e.g. vidcutter.py:607).  The disabled-action refusal is returned
as the specification's `InvalidState`.  The appended entry is
`[deltaToQTime(position), '', captureImage()]`; the thumbnail is omitted. -/
def cutStart (s : CutterState) (position : ℕ) : Except Err CutterState :=
  if s.inCut then .error .invalidState
  else .ok (renderTimes { s with
    clipTimes := s.clipTimes ++ [⟨deltaToQTime position, none⟩],
    inCut := true })

/-- `VidCutter.cutEnd` (vidcutter.py:421-432).  Gated by `cutEndAction`, whose
enablement equals `inCut` (enabled at 416, disabled at 429); the disabled
refusal is `InvalidState`.  The body reads the *last* entry, rejects with the
"Invalid END Time" dialog (the specification's `InvalidRange`) exactly when
`selected < item[0]` — strict less-than — and otherwise writes `item[1]`.
`QTime.__lt__` orders by time of day, i.e. by total milliseconds here.  The
inner `none` case is unreachable under the gate (Python would raise
`IndexError` on the empty list). -/
def cutEnd (s : CutterState) (position : ℕ) : Except Err CutterState :=
  if s.inCut = false then .error .invalidState
  else
    match s.clipTimes.getLast? with
    | none => .error .invalidState
    | some item =>
      let selected := deltaToQTime position
      if selected.msecsSinceStartOfDay < item.start.msecsSinceStartOfDay then
        .error .invalidRange
      else .ok (renderTimes { s with
        clipTimes := s.clipTimes.dropLast ++ [{ item with stop := some selected }],
        inCut := false })

/-- `VidCutter.moveItemUp` (vidcutter.py:255-260): `del` at the selected row,
re-insert one position earlier.  Reachable only through the clip-list context
menu, which enables the action exactly when a row is selected, `not inCut`,
and `index > 0` (vidcutter.py:243-246); the disabled refusal is the
specification's `OutOfRange`.  The selected row is always below the list
length, so the guard also rejects out-of-range indices; the inner `none` case
is then unreachable. -/
def moveItemUp (s : CutterState) (index : ℕ) : Except Err CutterState :=
  if s.inCut = true ∨ index = 0 ∨ s.clipTimes.length ≤ index then .error .outOfRange
  else
    match s.clipTimes[index]? with
    | none => .error .outOfRange
    | some tmpItem =>
      .ok (renderTimes { s with
        clipTimes := (s.clipTimes.eraseIdx index).insertIdx (index - 1) tmpItem })

/-- `VidCutter.moveItemDown` (vidcutter.py:262-267): `del` at the selected row,
re-insert one position later.  Context-menu gate: row selected, `not inCut`,
`index < count - 1` (vidcutter.py:243-248). -/
def moveItemDown (s : CutterState) (index : ℕ) : Except Err CutterState :=
  if s.inCut = true ∨ s.clipTimes.length ≤ index + 1 then .error .outOfRange
  else
    match s.clipTimes[index]? with
    | none => .error .outOfRange
    | some tmpItem =>
      .ok (renderTimes { s with
        clipTimes := (s.clipTimes.eraseIdx index).insertIdx (index + 1) tmpItem })

/-- `VidCutter.removeItem` (vidcutter.py:269-275), taken at face value on any
selection index, including `currentRow() == -1` (no selection).  `del
self.clipTimes[index]` follows Python indexing: a negative index wraps by the
list length, and an index out of range raises `IndexError` (returned as
`OutOfRange`).  The `inCut` reset compares the *raw* index with
`self.cliplist.count() - 1`, where the widget count still equals the
pre-deletion length of `clipTimes` (the widget is only rebuilt by the final
`renderTimes`); `initMediaControls` (run together with the reset) disables the
save action before `renderTimes` recomputes it. -/
def removeItem (s : CutterState) (index : ℤ) : Except Err CutterState :=
  let n := s.clipTimes.length
  let i : ℤ := if index < 0 then index + n else index
  if i < 0 ∨ (n : ℤ) ≤ i then .error .outOfRange
  else
    let s' : CutterState := { s with clipTimes := s.clipTimes.eraseIdx i.toNat }
    let s' := if s.inCut = true ∧ index = (n : ℤ) - 1 then
        { s' with inCut := false, saveEnabled := false }
      else s'
    .ok (renderTimes s')

/-- `VidCutter.syncClipList` (vidcutter.py:434-440), the handler of the list
model's `rowsMoved` drag signal — it runs on every drag, with no `inCut` gate
and no re-render:

    if start < row: index = row - 1
    else: index = row
    clip = self.clipTimes.pop(start)
    self.clipTimes.insert(index, clip)

Qt always reports a valid source row, so the `none` case (where `list.pop`
would raise `IndexError`) is unreachable. -/
def syncClipList (s : CutterState) (start row : ℕ) : CutterState :=
  let index := if start < row then row - 1 else row
  match s.clipTimes[start]? with
  | none => s
  | some clip =>
    { s with clipTimes := (s.clipTimes.eraseIdx start).insertIdx index clip }

/-- Modelled from the spec: `reorder(fromIndex, toIndex)` "must be expressed as
a pure positional move (pop at `fromIndex`, insert at the effective target
index, where the effective index is `toIndex` if `fromIndex >= toIndex`, else
`toIndex - 1`)".  Stated for comparison with `syncClipList`. -/
def reorderSpec (l : List Clip) (fromIndex toIndex : ℕ) : List Clip :=
  match l[fromIndex]? with
  | none => l
  | some clip =>
    (l.eraseIdx fromIndex).insertIdx
      (if fromIndex ≥ toIndex then toIndex else toIndex - 1) clip

/-- The backend and filesystem calls issued by an export attempt, in order.
`cut source filename start runtime` is `videoService.cut` with its two
`hh:mm:ss` strings; `writeList files` writes the `.vidcutter.list` helper
file (one quoted `file` line per entry, formatting not modelled); `join
output` is `videoService.join(listfile, output)`; `removeListFile` is
`os.remove(listfile)`; `removeFile p` is `QFile.remove(p)` or the
`os.path.isfile`-guarded `os.remove(p)` (both best-effort deletes); `rename
src dst` is `QFile.rename(src, dst)`, which moves only if `src` exists and
`dst` does not. -/
inductive Event where
  | cut (source filename start runtime : String)
  | writeList (files : List String)
  | join (output : String)
  | removeListFile
  | removeFile (path : String)
  | rename (src dst : String)
  deriving DecidableEq, Repr

/-- Intermediate file name `'%s_%s%s' % (file, '{0:0>2}'.format(index), ext)`
(vidcutter.py:494), where `(file, ext) = os.path.splitext(finalFilename)`. -/
def intermName (file ext : String) (index : ℕ) : String :=
  file ++ "_" ++ pad2 index ++ ext

/-- The per-clip trim loop of `cutVideo` (vidcutter.py:491-497): for each clip,
in list order, compute `runtime = deltaToQTime(clip[0].msecsTo(clip[1]))`,
append the intermediate name to `filelist` and call `videoService.cut`.
Returns the issued events together with `filelist`.  A clip whose end is still
`''` makes `msecsTo` raise `TypeError`, aborting the loop (calls already made
are then not represented; no claim depends on them).  Ends never precede
starts in clips built by `cutEnd`, so the `Int.toNat` in `runtime` is exact. -/
def trimClips (source file ext : String) : ℕ → List Clip → Except Err (List Event × List String)
  | _, [] => .ok ([], [])
  | index, clip :: rest =>
    match clip.stop with
    | none => .error .typeError
    | some stopT =>
      let filename := intermName file ext index
      let runtime := timeToString (deltaToQTime (clip.start.msecsTo stopT).toNat)
      match trimClips source file ext (index + 1) rest with
      | .error e => .error e
      | .ok (evs, files) =>
        .ok (.cut source filename (timeToString clip.start) runtime :: evs,
             filename :: files)

/-- `VidCutter.joinVideos` (vidcutter.py:509-522): write the list file, call
`videoService.join`, then best-effort cleanup — remove the list file and each
intermediate that exists (the `try`/`except` swallows deletion errors; in this
model deletes of missing files are no-ops, so that path never fires). -/
def joinVideos (joinlist : List String) (filename : String) : List Event :=
  [.writeList joinlist, .join filename, .removeListFile]
    ++ joinlist.map Event.removeFile

/-- `VidCutter.cutVideo` (vidcutter.py:480-507).  `source` is the loaded media
path; `file`/`ext` are `os.path.splitext(self.finalFilename)` for the
destination chosen in the save dialog (cancelling the dialog does nothing and
is not modelled).  With an empty clip list the method returns `False` having
issued no backend call.  After the trim loop: more than one intermediate is
joined into `finalFilename` by `joinVideos`; exactly one is promoted by
`QFile.remove(finalFilename)` then `QFile.rename(filename, finalFilename)`.
The return value is never inspected for backend failures — no call's outcome
is checked anywhere in the method. -/
def cutVideo (s : CutterState) (source file ext : String) : Except Err (List Event) :=
  if s.clipTimes.isEmpty then .ok []
  else
    match trimClips source file ext 1 s.clipTimes with
    | .error e => .error e
    | .ok (evs, filelist) =>
      if filelist.length > 1 then .ok (evs ++ joinVideos filelist (file ++ ext))
      else .ok (evs ++ [.removeFile (file ++ ext),
                        .rename (filelist.getLastD "") (file ++ ext)])

/-- Export as invocable from the UI: `cutVideo` is the `saveAction` handler
(vidcutter.py:202) and runs only while that action is enabled; the disabled
refusal is the specification's `NotReady`, with no backend call issued. -/
def exportAction (s : CutterState) (source file ext : String) : Except Err (List Event) :=
  if s.saveEnabled then cutVideo s source file ext else .error .notReady

/-- Filesystem contents for interpreting an event trace: which regular paths
exist, plus the `.vidcutter.list` helper file (whose directory-dependent path
is not modelled). -/
structure FS where
  files : String → Bool
  listfile : Bool

/-- Mark a path existing. -/
def FS.insert (fs : FS) (p : String) : FS :=
  { fs with files := fun q => q == p || fs.files q }

/-- Best-effort delete: removing a missing path is a no-op. -/
def FS.erase (fs : FS) (p : String) : FS :=
  { fs with files := fun q => if q == p then false else fs.files q }

/-- Effect of one event on the filesystem.  `cutOk i` tells whether the
`i`-th (1-based) `videoService.cut` call actually produced its output file,
`joinOk` the same for `videoService.join`; the running `ℕ` counts cut calls.
`rename` follows `QFile.rename`: it moves only if the source exists and the
destination does not, and its failure is silent. -/
def stepEvent (cutOk : ℕ → Bool) (joinOk : Bool) :
    ℕ × FS → Event → ℕ × FS
  | (i, fs), .cut _ filename _ _ => (i + 1, if cutOk i then fs.insert filename else fs)
  | (i, fs), .writeList _ => (i, { fs with listfile := true })
  | (i, fs), .join output => (i, if joinOk then fs.insert output else fs)
  | (i, fs), .removeListFile => (i, { fs with listfile := false })
  | (i, fs), .removeFile p => (i, fs.erase p)
  | (i, fs), .rename src dst =>
    (i, if fs.files src && !fs.files dst then (fs.erase src).insert dst else fs)

/-- Run a trace against a filesystem. -/
def runEvents (cutOk : ℕ → Bool) (joinOk : Bool) (evs : List Event) (fs : FS) : FS :=
  (evs.foldl (stepEvent cutOk joinOk) (1, fs)).2

/-- Recognizer for trim calls in a trace (used to count `videoService.cut`
invocations). -/
def isCutCall : Event → Bool
  | .cut .. => true
  | _ => false

/-- Expected trim-call sequence for a list of closed regions `(start, end)`:
one `videoService.cut` per region, in region order, with 1-based intermediate
names.  Used to state what `cutVideo`'s loop produces. -/
def exportCutEvents (source file ext : String) (clips : List (QTime × QTime)) : List Event :=
  (clips.enumFrom 1).map fun q =>
    Event.cut source (intermName file ext q.1) (timeToString q.2.1)
      (timeToString (deltaToQTime (QTime.msecsTo q.2.1 q.2.2).toNat))

/-- Expected `filelist` for a list of closed regions: the intermediate names,
1-based, in region order. -/
def exportNames (file ext : String) (clips : List (QTime × QTime)) : List String :=
  (clips.enumFrom 1).map fun q => intermName file ext q.1

/-- A user action on the markers: `markStart`/`markEnd` of the specification,
i.e. `cutStart` / `cutEnd` at the given player position (milliseconds). -/
inductive MarkOp where
  | markStart (position : ℕ)
  | markEnd (position : ℕ)

/-- Apply one marker action; a refused action leaves the state as it was. -/
def stepMark (s : CutterState) : MarkOp → CutterState
  | .markStart p => match cutStart s p with | .ok s' => s' | .error _ => s
  | .markEnd p => match cutEnd s p with | .ok s' => s' | .error _ => s

/-- State reached from the fresh state by a sequence of marker actions. -/
def runMarks (ops : List MarkOp) : CutterState :=
  ops.foldl stepMark initialState

/-- Structural invariant maintained by the marker actions: while a cut is
active the clip list is some closed clips followed by one open clip; otherwise
every clip is closed. -/
def MarkInv (s : CutterState) : Prop :=
  (s.inCut = true → ∃ l c, s.clipTimes = l ++ [c] ∧ c.stop = none ∧
    ∀ x ∈ l, x.stop ≠ none) ∧
  (s.inCut = false → ∀ x ∈ s.clipTimes, x.stop ≠ none)

/-! ## Arithmetic characterization of `deltaToQTime` -/

theorem floor_natCast_div (m a : ℕ) : ⌊(m : ℚ) / ((a : ℕ) : ℚ)⌋ = ((m / a : ℕ) : ℤ) := by
  rw [show ((m : ℚ)) = (((m : ℤ)) : ℚ) by push_cast; ring]
  rw [Rat.floor_intCast_div_natCast]
  exact (Int.natCast_div m a).symm

theorem floor_pyFmod_div (m a b : ℕ) :
    (⌊pyFmod ((m : ℚ) / ((a : ℕ) : ℚ)) ((b : ℕ) : ℚ)⌋).toNat = m / a % b := by
  have key : ⌊(m : ℚ) / ((a : ℕ) : ℚ) / ((b : ℕ) : ℚ)⌋ = ((m / (a * b) : ℕ) : ℤ) := by
    rw [div_div, ← Nat.cast_mul, floor_natCast_div]
  have hb : ((b : ℕ) : ℚ) * (((m / (a * b) : ℕ) : ℤ) : ℚ) = (((b * (m / (a * b)) : ℕ)) : ℚ) := by
    rw [Int.cast_natCast, ← Nat.cast_mul]
  unfold pyFmod
  rw [key, hb, Int.floor_sub_nat, floor_natCast_div]
  rw [← Nat.div_div_eq_div_mul]
  have h := Nat.mod_add_div (m / a) b
  generalize b * (m / a / b) = c at h ⊢
  omega

theorem deltaToQTime_eq (m : ℕ) :
    deltaToQTime m = ⟨m / 3600000 % 60, m / 60000 % 60, m / 1000 % 60, m % 1000⟩ := by
  have e1 : (m : ℚ) / 1000 / 3600 = (m : ℚ) / ((3600000 : ℕ) : ℚ) := by
    rw [div_div]; norm_num
  have e2 : (m : ℚ) / 1000 / 60 = (m : ℚ) / ((60000 : ℕ) : ℚ) := by
    rw [div_div]; norm_num
  have e3 : (m : ℚ) / 1000 = (m : ℚ) / ((1000 : ℕ) : ℚ) := by norm_num
  have e4 : (m : ℚ) / 1000 * 1000 = (m : ℚ) / ((1 : ℕ) : ℚ) := by
    rw [div_mul_cancel₀] <;> norm_num
  have e60 : (60 : ℚ) = ((60 : ℕ) : ℚ) := by norm_num
  have e1000 : (1000 : ℚ) = ((1000 : ℕ) : ℚ) := by norm_num
  simp only [deltaToQTime]
  congr 1
  · rw [e1, e60, floor_pyFmod_div]
  · rw [e2, e60, floor_pyFmod_div]
  · rw [e3, e60, floor_pyFmod_div]
  · rw [e4, e1000, floor_pyFmod_div, Nat.div_one]

/-! ## C9: millisecond round-trip through `deltaToQTime` -/

/-- C9 (code bug): the round-trip the claim (and the spec's "must accept and
produce exact millisecond values without rounding loss") requires does not
hold of the code.  Two independent losses exist.  First, the hours slot is
computed as `(secs / 3600) % 60`, so at `m = 216000000` (exactly 60 hours)
the conversion returns midnight and the components recombine to `0`, not `m`
— evaluated here; at this input every intermediate value of the source's
float computation is an integer below `2^53`, so the exact-rational model
coincides with the program.  Second, the source's binary64 division already
loses the millisecond slot below the wrap: at `m = 1001` it computes
`int(((1001 / 1000) * 1000) % 1000) = 0` — the product rounds to
`1000.99999999999994543…` — so the program's components recombine to `1000`;
that divergence lives in floating point outside this rational model and is
documented at `deltaToQTime`. -/
theorem deltaToQTime_not_lossless :
    deltaToQTime 216000000 = ⟨0, 0, 0, 0⟩ ∧
      (deltaToQTime 216000000).msecsSinceStartOfDay ≠ 216000000 := by
  rw [deltaToQTime_eq]
  exact ⟨by decide, by decide⟩

/-! ## C2: at most one open region, always last -/

theorem renderTimes_clipTimes (s : CutterState) : (renderTimes s).clipTimes = s.clipTimes := rfl

theorem renderTimes_inCut (s : CutterState) : (renderTimes s).inCut = s.inCut := rfl

theorem stepMark_inv (s : CutterState) (h : MarkInv s) (op : MarkOp) :
    MarkInv (stepMark s op) := by
  cases op with
  | markStart p =>
    by_cases hc : s.inCut = true
    · simp [stepMark, cutStart, hc, h]
    · simp only [Bool.not_eq_true] at hc
      simp only [stepMark, cutStart, hc, Bool.false_eq_true, if_false]
      constructor
      · intro _
        refine ⟨s.clipTimes, ⟨deltaToQTime p, none⟩, by simp [renderTimes_clipTimes], rfl, ?_⟩
        exact h.2 hc
      · intro hfalse
        rw [renderTimes_inCut] at hfalse
        simp at hfalse
  | markEnd p =>
    by_cases hc : s.inCut = true
    · obtain ⟨l, c, hlc, hco, hlcl⟩ := h.1 hc
      simp only [stepMark, cutEnd, hc, if_neg (by simp : ¬(true = false))]
      rw [hlc, List.getLast?_concat]
      by_cases hlt : (deltaToQTime p).msecsSinceStartOfDay < c.start.msecsSinceStartOfDay
      · simpa [hlt] using h
      · simp only [hlt, if_false]
        constructor
        · intro habs
          rw [renderTimes_inCut] at habs
          simp at habs
        · intro _
          rw [renderTimes_clipTimes]
          rw [List.dropLast_concat]
          intro x hx
          rcases List.mem_append.mp hx with hx | hx
          · exact hlcl x hx
          · rcases List.mem_singleton.mp hx with rfl
            simp
    · simp only [Bool.not_eq_true] at hc
      simp [stepMark, cutEnd, hc, h]

theorem runMarks_inv (ops : List MarkOp) : MarkInv (runMarks ops) := by
  suffices hgen : ∀ (l : List MarkOp) (s : CutterState), MarkInv s → MarkInv (l.foldl stepMark s) by
    exact hgen ops initialState ⟨by simp [initialState], by simp [initialState]⟩
  intro l
  induction l with
  | nil => exact fun s h => h
  | cons op rest ih => exact fun s h => ih _ (stepMark_inv s h op)

theorem markInv_consequences (s : CutterState) (h : MarkInv s) :
    ((s.clipTimes.filter (fun c => c.stop.isNone)).length ≤ 1)
    ∧ (∀ i, (hi : i < s.clipTimes.length) → (s.clipTimes[i]).stop = none →
        i + 1 = s.clipTimes.length)
    ∧ (∀ p, (∃ c ∈ s.clipTimes, c.stop = none) →
        cutStart s p = .error .invalidState) := by
  by_cases hc : s.inCut = true
  · obtain ⟨l, c, hlc, hco, hlcl⟩ := h.1 hc
    have hfl : l.filter (fun c => c.stop.isNone) = [] := by
      refine List.filter_eq_nil_iff.mpr fun a ha => ?_
      simp [Option.isNone_iff_eq_none, hlcl a ha]
    refine ⟨?_, ?_, ?_⟩
    · rw [hlc, List.filter_append, hfl]
      simp [hco]
    · intro i hi hopen
      have hsome : ∃ x, s.clipTimes[i]? = some x ∧ x.stop = none :=
        ⟨_, List.getElem?_eq_getElem hi, hopen⟩
      rw [hlc] at hsome
      obtain ⟨x, hx, hxopen⟩ := hsome
      rw [hlc, List.length_append, List.length_singleton]
      have hi' : i < l.length + 1 := by
        have := hi
        rw [hlc, List.length_append, List.length_singleton] at this
        exact this
      by_cases hil : i < l.length
      · exfalso
        rw [List.getElem?_append_left hil, List.getElem?_eq_getElem hil] at hx
        have hxl : l[i] = x := Option.some_inj.mp hx
        exact hlcl x (hxl ▸ List.getElem_mem hil) hxopen
      · omega
    · intro p _
      simp [cutStart, hc]
  · simp only [Bool.not_eq_true] at hc
    have hcl := h.2 hc
    have hfl : s.clipTimes.filter (fun c => c.stop.isNone) = [] := by
      refine List.filter_eq_nil_iff.mpr fun a ha => ?_
      simp [Option.isNone_iff_eq_none, hcl a ha]
    refine ⟨by rw [hfl]; simp, ?_, ?_⟩
    · intro i hi hopen
      exact absurd hopen (hcl _ (s.clipTimes.getElem_mem hi))
    · intro p hex
      obtain ⟨c, hmem, hopen⟩ := hex
      exact absurd hopen (hcl c hmem)

/-- C2 (confirmed): along every sequence of `markStart`/`markEnd` actions from
the fresh state, at most one clip is open, an open clip is always the last
element, and `markStart` while a clip is open is refused as `InvalidState`
without appending anything (the append in `cutStart` is unreachable while
`inCut` holds, because `cutStartAction` is disabled for exactly that span). -/
theorem mark_sequences_at_most_one_open (ops : List MarkOp) :
    (((runMarks ops).clipTimes.filter (fun c => c.stop.isNone)).length ≤ 1)
    ∧ (∀ i, (hi : i < (runMarks ops).clipTimes.length) →
        ((runMarks ops).clipTimes[i]).stop = none →
        i + 1 = (runMarks ops).clipTimes.length)
    ∧ (∀ p, (∃ c ∈ (runMarks ops).clipTimes, c.stop = none) →
        cutStart (runMarks ops) p = .error .invalidState) :=
  markInv_consequences _ (runMarks_inv ops)

/-- C2, witness: after `markStart(500)` the single clip is open, and a second
`markStart` at position 900 is refused with `InvalidState`. -/
theorem mark_sequences_witness :
    cutStart (runMarks [.markStart 500]) 900 = .error .invalidState :=
  (mark_sequences_at_most_one_open [.markStart 500]).2.2 900
    ⟨⟨deltaToQTime 500, none⟩,
     by simp [runMarks, stepMark, cutStart, initialState, renderTimes_clipTimes], rfl⟩

/-! ## C3: `markEnd` at a position equal to the start -/

/-- C3 (code bug): with an open clip started at 2000ms, `markEnd(2000)` — end
equal to start — is *accepted*: `cutEnd` only rejects `selected < item[0]`
(strict), so it closes the clip with `end = start` and returns success,
although its own error dialog states the end "must come AFTER" the start and
the claim requires `InvalidRange` with no mutation for `p <= s`. -/
theorem cutEnd_accepts_equal_position :
    cutEnd (runMarks [.markStart 2000]) 2000 =
      .ok ⟨[⟨⟨0, 0, 2, 0⟩, some ⟨0, 0, 2, 0⟩⟩], false, true⟩ := by
  simp [runMarks, stepMark, cutStart, cutEnd, renderTimes, firstClipClosed,
    initialState, deltaToQTime_eq, QTime.msecsSinceStartOfDay]

/-! ## C7: move gating at boundaries and during an active cut -/

/-- C7 (confirmed): `moveUp` at index 0 and `moveDown` at the last index are
refused as `OutOfRange`, and so is any move while a cut is active (the context
menu enables the actions only for a selected row with `not inCut` and, for
up/down respectively, `index > 0` / `index < count - 1`).  A refusal returns
no new state, so the clip sequence is untouched. -/
theorem move_boundary_or_active_fails (s : CutterState) (i j : ℕ)
    (hup : i = 0 ∨ s.inCut = true)
    (hdown : j + 1 = s.clipTimes.length ∨ s.inCut = true) :
    moveItemUp s i = .error .outOfRange ∧ moveItemDown s j = .error .outOfRange := by
  constructor
  · rcases hup with rfl | h
    · simp [moveItemUp]
    · simp [moveItemUp, h]
  · rcases hdown with h | h
    · simp [moveItemDown, Nat.le_of_eq h.symm]
    · simp [moveItemDown, h]

/-- C7, witness: after `markStart(500)` the single region is both at every
boundary and open, and `moveUp(0)` / `moveDown(0)` are refused. -/
theorem move_boundary_witness :
    moveItemUp (runMarks [.markStart 500]) 0 = .error .outOfRange ∧
      moveItemDown (runMarks [.markStart 500]) 0 = .error .outOfRange :=
  move_boundary_or_active_fails (runMarks [.markStart 500]) 0 0 (Or.inl rfl)
    (Or.inr (by simp [runMarks, stepMark, cutStart, initialState, renderTimes_inCut]))

/-! ## C10: `removeItem` with no selection (index −1) -/

/-- C10, counterexample to the claim as stated: removing with `currentRow() =
-1` while the only (open) region is deleted does *not* clear `inCut`: the
reset condition compares the raw index `-1` with `count - 1`, and for a
non-empty list these are never equal, so the flag survives the deletion. -/
theorem removeItem_no_selection_keeps_inCut :
    removeItem ⟨[⟨⟨0, 0, 0, 500⟩, none⟩], true, false⟩ (-1) =
      .ok ⟨[], true, false⟩ := rfl

/-- C10, amended: `remove` invoked with selection index `-1` on a non-empty
timeline deletes the *last* region (Python's negative indexing wraps), but
`isCutActive` is never cleared by such a call — even when the removed region
was the open one — because the clearing condition compares the raw `-1`
against the pre-deletion count minus one. -/
theorem removeItem_no_selection (s : CutterState) (h : s.clipTimes ≠ []) :
    removeItem s (-1) = .ok (renderTimes { s with clipTimes := s.clipTimes.dropLast }) := by
  have hn : 0 < s.clipTimes.length := List.length_pos.mpr h
  have hlast : s.clipTimes.dropLast = s.clipTimes.eraseIdx (s.clipTimes.length - 1) :=
    List.dropLast_eq_eraseIdx (by omega)
  simp only [removeItem]
  rw [if_pos (by norm_num : (-1 : ℤ) < 0)]
  rw [if_neg (by omega : ¬((-1 : ℤ) + s.clipTimes.length < 0 ∨
    (s.clipTimes.length : ℤ) ≤ (-1 : ℤ) + s.clipTimes.length))]
  rw [if_neg (by rintro ⟨-, habs⟩; omega)]
  have htn : ((-1 : ℤ) + s.clipTimes.length).toNat = s.clipTimes.length - 1 := by omega
  rw [htn, ← hlast]

/-- C10, witness for the amended statement: deleting with no selection from a
two-clip list removes the trailing clip and keeps `inCut` as it was. -/
theorem removeItem_no_selection_witness :
    removeItem ⟨[⟨⟨0, 0, 1, 0⟩, some ⟨0, 0, 2, 0⟩⟩, ⟨⟨0, 0, 3, 0⟩, none⟩], true, true⟩ (-1) =
      .ok (renderTimes { clipTimes := [⟨⟨0, 0, 1, 0⟩, some ⟨0, 0, 2, 0⟩⟩,
          ⟨⟨0, 0, 3, 0⟩, none⟩].dropLast, inCut := true, saveEnabled := true }) :=
  removeItem_no_selection ⟨[⟨⟨0, 0, 1, 0⟩, some ⟨0, 0, 2, 0⟩⟩,
    ⟨⟨0, 0, 3, 0⟩, none⟩], true, true⟩ (by decide)

/-! ## C8: drag reorder is pop-and-insert at the effective index -/

theorem cons_eraseIdx_perm {α : Type} :
    ∀ (l : List α) (i : ℕ) (x : α), l[i]? = some x → (x :: l.eraseIdx i).Perm l := by
  intro l
  induction l with
  | nil => intro i x hx; simp at hx
  | cons a t ih =>
    intro i x hx
    cases i with
    | zero =>
      simp only [List.getElem?_cons_zero, Option.some_inj] at hx
      rw [hx, List.eraseIdx_cons_zero]
    | succ i =>
      simp only [List.getElem?_cons_succ] at hx
      rw [List.eraseIdx_cons_succ]
      exact (List.Perm.swap a x _).trans (List.Perm.cons a (ih i x hx))

/-- C8 (confirmed): for every clip list and valid drag indices, the
`rowsMoved` handler equals the pure positional move — pop at `fromIndex`,
insert at `toIndex` when `fromIndex >= toIndex`, else at `toIndex - 1` — and
its result is a permutation of the previous clip sequence.  (Qt only ever
reports a source row below the list length and a destination row of at most
the list length, which is what the two bounds say.) -/
theorem syncClipList_is_reorder (s : CutterState) (fromIndex toIndex : ℕ)
    (h1 : fromIndex < s.clipTimes.length) (h2 : toIndex ≤ s.clipTimes.length) :
    (syncClipList s fromIndex toIndex).clipTimes = reorderSpec s.clipTimes fromIndex toIndex
    ∧ (syncClipList s fromIndex toIndex).clipTimes.Perm s.clipTimes := by
  have hx : s.clipTimes[fromIndex]? = some s.clipTimes[fromIndex] :=
    List.getElem?_eq_getElem h1
  have hidx : (if fromIndex < toIndex then toIndex - 1 else toIndex)
      = (if fromIndex ≥ toIndex then toIndex else toIndex - 1) := by
    rcases Nat.lt_or_ge fromIndex toIndex with hlt | hge
    · simp [hlt, Nat.not_le.mpr hlt]
    · simp [Nat.not_lt.mpr hge, hge]
  constructor
  · simp only [syncClipList, reorderSpec, hx, hidx]
  · simp only [syncClipList, hx]
    have hbound : (if fromIndex < toIndex then toIndex - 1 else toIndex)
        ≤ (s.clipTimes.eraseIdx fromIndex).length := by
      rw [List.length_eraseIdx]
      split <;> omega
    exact (List.perm_insertIdx _ _ hbound).trans
      (cons_eraseIdx_perm s.clipTimes fromIndex _ hx)

/-- C8, witness: dragging the first of three clips to destination row 2 lands
it at effective index 1 and permutes the list. -/
theorem syncClipList_witness :
    (syncClipList ⟨[⟨⟨0, 0, 1, 0⟩, none⟩, ⟨⟨0, 0, 2, 0⟩, none⟩,
        ⟨⟨0, 0, 3, 0⟩, none⟩], false, false⟩ 0 2).clipTimes
      = reorderSpec [⟨⟨0, 0, 1, 0⟩, none⟩, ⟨⟨0, 0, 2, 0⟩, none⟩,
        ⟨⟨0, 0, 3, 0⟩, none⟩] 0 2
    ∧ (syncClipList ⟨[⟨⟨0, 0, 1, 0⟩, none⟩, ⟨⟨0, 0, 2, 0⟩, none⟩,
        ⟨⟨0, 0, 3, 0⟩, none⟩], false, false⟩ 0 2).clipTimes.Perm
        [⟨⟨0, 0, 1, 0⟩, none⟩, ⟨⟨0, 0, 2, 0⟩, none⟩, ⟨⟨0, 0, 3, 0⟩, none⟩] :=
  syncClipList_is_reorder ⟨[⟨⟨0, 0, 1, 0⟩, none⟩, ⟨⟨0, 0, 2, 0⟩, none⟩,
    ⟨⟨0, 0, 3, 0⟩, none⟩], false, false⟩ 0 2 (by decide) (by decide)

/-! ## C4: what "exportable" actually is -/

/-- C4, counterexample to the claim as stated: close a first region, then open
a second one — `renderTimes` leaves the save action *enabled* (neither of its
two conditions fires: a cut is active, and the first clip has a `QTime` end),
so a timeline with an open (non-first) region is exportable, contradicting
"isExportable() is false … [for] a timeline with an open region / any region
missing end". -/
theorem exportable_with_open_region :
    runMarks [.markStart 0, .markEnd 1000, .markStart 2000] =
      ⟨[⟨⟨0, 0, 0, 0⟩, some ⟨0, 0, 1, 0⟩⟩, ⟨⟨0, 0, 2, 0⟩, none⟩], true, true⟩ := by
  simp [runMarks, stepMark, cutStart, cutEnd, renderTimes, firstClipClosed,
    initialState, deltaToQTime_eq, QTime.msecsSinceStartOfDay]

/-- C4, amended: after any `renderTimes`, the save action (the source's only
"is exportable" signal) is enabled iff the timeline is non-empty, the *first*
region's end is present, and either no cut is active or the action was
already enabled — so only emptiness and the first region's end are genuinely
checked, and an open region merely freezes the previous answer.  Export
invoked while the action is disabled is refused as `NotReady` with no backend
call issued. -/
theorem saveEnabled_characterization (s : CutterState) :
    ((renderTimes s).saveEnabled = true ↔
      (s.clipTimes ≠ [] ∧ firstClipClosed s = true ∧
        (s.inCut = false ∨ s.saveEnabled = true)))
    ∧ (∀ source file ext, s.saveEnabled = false →
        exportAction s source file ext = .error .notReady) := by
  constructor
  · simp only [renderTimes]
    by_cases he : s.clipTimes = []
    · simp [he]
    · by_cases hf : firstClipClosed s = false
      · simp [he, hf]
      · simp only [Bool.not_eq_false] at hf
        by_cases hc : s.inCut = false
        · simp [he, hf, hc]
        · simp only [Bool.not_eq_false] at hc
          simp [he, hf, hc]
  · intro source file ext h
    simp [exportAction, h]

/-- C4, witness: in the fresh state the save action is disabled and export is
refused as `NotReady`. -/
theorem saveEnabled_witness :
    exportAction initialState "in.mp4" "out" ".mp4" = .error .notReady :=
  (saveEnabled_characterization initialState).2 "in.mp4" "out" ".mp4" rfl

/-! ## Pipeline helper lemmas -/

theorem string_append_assoc (a b c : String) : a ++ b ++ c = a ++ (b ++ c) := by
  apply String.ext
  simp [String.data_append, List.append_assoc]

theorem intermName_one (file ext : String) : intermName file ext 1 = file ++ "_01" ++ ext := by
  unfold intermName
  rw [show pad2 1 = "01" from rfl, string_append_assoc file "_" "01",
    show ("_" ++ "01" : String) = "_01" from rfl]

/-! ## C5: exporting a single region [2000ms, 5000ms] -/

/-- C5 (confirmed): exporting a timeline whose single region is
`[start = 2000ms, end = 5000ms]` issues exactly one `videoService.cut` whose
start is `00:00:02` and whose runtime renders `deltaToQTime(3000)` — the
3000ms difference end minus start — and no `videoService.join`; the one
intermediate is named from the destination's base name with suffix `_01` and
the original extension, and it becomes the destination via
`QFile.remove(destination)` followed by `QFile.rename(intermediate,
destination)`: against any starting filesystem, the destination exists
afterwards and the intermediate does not. -/
theorem single_region_export (source file ext : String)
    (hne : intermName file ext 1 ≠ file ++ ext) :
    cutVideo ⟨[⟨⟨0, 0, 2, 0⟩, some ⟨0, 0, 5, 0⟩⟩], false, true⟩ source file ext
      = .ok [.cut source (intermName file ext 1) "00:00:02" "00:00:03",
             .removeFile (file ++ ext),
             .rename (intermName file ext 1) (file ++ ext)]
    ∧ intermName file ext 1 = file ++ "_01" ++ ext
    ∧ timeToString (deltaToQTime 3000) = "00:00:03"
    ∧ (∀ output, Event.join output ∉
        [Event.cut source (intermName file ext 1) "00:00:02" "00:00:03",
         Event.removeFile (file ++ ext),
         Event.rename (intermName file ext 1) (file ++ ext)])
    ∧ (∀ fs : FS,
        (runEvents (fun _ => true) true
          [Event.cut source (intermName file ext 1) "00:00:02" "00:00:03",
           Event.removeFile (file ++ ext),
           Event.rename (intermName file ext 1) (file ++ ext)] fs).files (file ++ ext) = true
        ∧ (runEvents (fun _ => true) true
          [Event.cut source (intermName file ext 1) "00:00:02" "00:00:03",
           Event.removeFile (file ++ ext),
           Event.rename (intermName file ext 1) (file ++ ext)] fs).files
            (intermName file ext 1) = false) := by
  have hdt : deltaToQTime ((QTime.msecsTo ⟨0, 0, 2, 0⟩ ⟨0, 0, 5, 0⟩).toNat) = ⟨0, 0, 3, 0⟩ := by
    rw [show (QTime.msecsTo ⟨0, 0, 2, 0⟩ ⟨0, 0, 5, 0⟩).toNat = 3000 from rfl, deltaToQTime_eq]
  refine ⟨?_, intermName_one file ext, by rw [deltaToQTime_eq]; decide, ?_, ?_⟩
  · simp [cutVideo, trimClips, hdt, show timeToString ⟨0, 0, 2, 0⟩ = "00:00:02" from rfl,
      show timeToString ⟨0, 0, 3, 0⟩ = "00:00:03" from rfl]
  · intro output
    simp
  · intro fs
    constructor
    · simp [runEvents, stepEvent, FS.insert, FS.erase, List.foldl, hne, Ne.symm hne]
    · simp [runEvents, stepEvent, FS.insert, FS.erase, List.foldl, hne, Ne.symm hne]

/-- C5, witness: the single-region export against concrete names
`in.mp4` → `out.mp4`. -/
theorem single_region_export_witness :
    cutVideo ⟨[⟨⟨0, 0, 2, 0⟩, some ⟨0, 0, 5, 0⟩⟩], false, true⟩ "in.mp4" "out" ".mp4"
      = .ok [.cut "in.mp4" (intermName "out" ".mp4" 1) "00:00:02" "00:00:03",
             .removeFile ("out" ++ ".mp4"),
             .rename (intermName "out" ".mp4" 1) ("out" ++ ".mp4")]
    ∧ intermName "out" ".mp4" 1 = "out" ++ "_01" ++ ".mp4"
    ∧ timeToString (deltaToQTime 3000) = "00:00:03"
    ∧ (∀ output, Event.join output ∉
        [Event.cut "in.mp4" (intermName "out" ".mp4" 1) "00:00:02" "00:00:03",
         Event.removeFile ("out" ++ ".mp4"),
         Event.rename (intermName "out" ".mp4" 1) ("out" ++ ".mp4")])
    ∧ (∀ fs : FS,
        (runEvents (fun _ => true) true
          [Event.cut "in.mp4" (intermName "out" ".mp4" 1) "00:00:02" "00:00:03",
           Event.removeFile ("out" ++ ".mp4"),
           Event.rename (intermName "out" ".mp4" 1) ("out" ++ ".mp4")] fs).files
            ("out" ++ ".mp4") = true
        ∧ (runEvents (fun _ => true) true
          [Event.cut "in.mp4" (intermName "out" ".mp4" 1) "00:00:02" "00:00:03",
           Event.removeFile ("out" ++ ".mp4"),
           Event.rename (intermName "out" ".mp4" 1) ("out" ++ ".mp4")] fs).files
            (intermName "out" ".mp4" 1) = false) :=
  single_region_export "in.mp4" "out" ".mp4" (by decide)

/-! ## C6: exporting two or more regions -/

theorem trimClips_closed (source file ext : String) (clips : List (QTime × QTime)) :
    ∀ start, trimClips source file ext start (clips.map fun p => ⟨p.1, some p.2⟩)
      = .ok ((clips.enumFrom start).map (fun q =>
            Event.cut source (intermName file ext q.1) (timeToString q.2.1)
              (timeToString (deltaToQTime (QTime.msecsTo q.2.1 q.2.2).toNat))),
          (clips.enumFrom start).map (fun q => intermName file ext q.1)) := by
  induction clips with
  | nil => intro start; simp [trimClips, List.enumFrom]
  | cons p rest ih =>
    intro start
    simp [trimClips, List.enumFrom, ih (start + 1)]

theorem trimClips_closed_one (source file ext : String) (clips : List (QTime × QTime)) :
    trimClips source file ext 1 (clips.map fun p => ⟨p.1, some p.2⟩)
      = .ok (exportCutEvents source file ext clips, exportNames file ext clips) :=
  trimClips_closed source file ext clips 1

theorem foldl_removeFiles (cutOk : ℕ → Bool) (joinOk : Bool) (names : List String) :
    ∀ st : ℕ × FS, (names.map Event.removeFile).foldl (stepEvent cutOk joinOk) st
      = (st.1, names.foldl FS.erase st.2) := by
  induction names with
  | nil => intro st; rfl
  | cons n rest ih => intro st; simp [List.foldl, stepEvent, ih]

theorem foldl_erase_stays_false (names : List String) :
    ∀ (fs : FS) (p : String), fs.files p = false → (names.foldl FS.erase fs).files p = false := by
  induction names with
  | nil => intro fs p h; exact h
  | cons n rest ih =>
    intro fs p h
    refine ih _ p ?_
    simp only [FS.erase]
    split <;> simp [h]

theorem foldl_erase_mem (names : List String) :
    ∀ (fs : FS) (p : String), p ∈ names → (names.foldl FS.erase fs).files p = false := by
  induction names with
  | nil => intro fs p h; simp at h
  | cons n rest ih =>
    intro fs p h
    rcases List.mem_cons.mp h with rfl | h
    · refine foldl_erase_stays_false rest _ p ?_
      simp [FS.erase]
    · exact ih _ p h

theorem foldl_erase_not_mem (names : List String) :
    ∀ (fs : FS) (p : String), p ∉ names → (names.foldl FS.erase fs).files p = fs.files p := by
  induction names with
  | nil => intro fs p _; rfl
  | cons n rest ih =>
    intro fs p h
    rw [List.foldl_cons, ih _ p (fun hm => h (List.mem_cons_of_mem n hm))]
    simp only [FS.erase]
    rw [if_neg]
    simp only [beq_iff_eq]
    exact fun hpn => h (hpn ▸ List.mem_cons_self n rest)

/-- C6 (confirmed): exporting an exportable timeline of two or more regions
issues one `videoService.cut` per region, in timeline order (the 1-based
intermediate names follow that order), then writes the list file with exactly
the intermediate names in that same order, issues exactly one
`videoService.join` into the destination, and finally deletes the list file
and every intermediate; when every trim and the join produce their files,
interpreting the trace leaves no intermediate on disk while the destination
(assuming its name does not collide with an intermediate's) exists. -/
theorem multi_region_export (source file ext : String) (clips : List (QTime × QTime))
    (h2 : 2 ≤ clips.length) :
    cutVideo ⟨clips.map (fun p => ⟨p.1, some p.2⟩), false, true⟩ source file ext
      = .ok (exportCutEvents source file ext clips
          ++ joinVideos (exportNames file ext clips) (file ++ ext))
    ∧ (exportCutEvents source file ext clips
        ++ joinVideos (exportNames file ext clips) (file ++ ext)).countP isCutCall
        = clips.length
    ∧ (∀ fs : FS, ∀ n ∈ exportNames file ext clips,
        (runEvents (fun _ => true) true
          (exportCutEvents source file ext clips
            ++ joinVideos (exportNames file ext clips) (file ++ ext)) fs).files n = false)
    ∧ (∀ fs : FS, (file ++ ext) ∉ exportNames file ext clips →
        (runEvents (fun _ => true) true
          (exportCutEvents source file ext clips
            ++ joinVideos (exportNames file ext clips) (file ++ ext)) fs).files
          (file ++ ext) = true) := by
  have hlen : (exportNames file ext clips).length = clips.length := by
    simp [exportNames]
  have hempty : (clips.map (fun p => (⟨p.1, some p.2⟩ : Clip))).isEmpty = false := by
    cases clips with
    | nil => simp at h2
    | cons a t => rfl
  have hmain : cutVideo ⟨clips.map (fun p => ⟨p.1, some p.2⟩), false, true⟩ source file ext
      = .ok (exportCutEvents source file ext clips
          ++ joinVideos (exportNames file ext clips) (file ++ ext)) := by
    simp only [cutVideo, hempty, Bool.false_eq_true, if_false, trimClips_closed_one]
    rw [if_pos (by omega : (exportNames file ext clips).length > 1)]
  refine ⟨hmain, ?_, ?_, ?_⟩
  · rw [List.countP_append]
    have hc1 : (exportCutEvents source file ext clips).countP isCutCall
        = clips.length := by
      simp [exportCutEvents, List.countP_map, Function.comp_def, isCutCall]
    have hc2 : (joinVideos (exportNames file ext clips) (file ++ ext)).countP isCutCall
        = 0 := by
      simp [joinVideos, List.countP_append, List.countP_map, Function.comp_def,
        isCutCall, List.countP_cons]
    rw [hc1, hc2]
    omega
  · intro fs n hn
    simp only [runEvents, joinVideos, List.foldl_append]
    rw [foldl_removeFiles]
    exact foldl_erase_mem _ _ n hn
  · intro fs hdest
    simp only [runEvents, joinVideos, List.foldl_append]
    rw [foldl_removeFiles]
    rw [foldl_erase_not_mem _ _ _ hdest]
    simp [List.foldl, stepEvent, FS.insert]

/-- C6, witness: the two-region export `[0ms,1000ms]`, `[2000ms,2500ms]`
against concrete names `in.mp4` → `out.mp4`. -/
theorem multi_region_export_witness :
    cutVideo ⟨[(⟨⟨0, 0, 0, 0⟩, ⟨0, 0, 1, 0⟩⟩ : QTime × QTime),
        ⟨⟨0, 0, 2, 0⟩, ⟨0, 0, 2, 500⟩⟩].map (fun p => ⟨p.1, some p.2⟩), false, true⟩
        "in.mp4" "out" ".mp4"
      = .ok (exportCutEvents "in.mp4" "out" ".mp4"
            [⟨⟨0, 0, 0, 0⟩, ⟨0, 0, 1, 0⟩⟩, ⟨⟨0, 0, 2, 0⟩, ⟨0, 0, 2, 500⟩⟩]
          ++ joinVideos (exportNames "out" ".mp4"
            [⟨⟨0, 0, 0, 0⟩, ⟨0, 0, 1, 0⟩⟩, ⟨⟨0, 0, 2, 0⟩, ⟨0, 0, 2, 500⟩⟩]) ("out" ++ ".mp4"))
    ∧ (exportCutEvents "in.mp4" "out" ".mp4"
          [⟨⟨0, 0, 0, 0⟩, ⟨0, 0, 1, 0⟩⟩, ⟨⟨0, 0, 2, 0⟩, ⟨0, 0, 2, 500⟩⟩]
        ++ joinVideos (exportNames "out" ".mp4"
          [⟨⟨0, 0, 0, 0⟩, ⟨0, 0, 1, 0⟩⟩, ⟨⟨0, 0, 2, 0⟩, ⟨0, 0, 2, 500⟩⟩]) ("out" ++ ".mp4")).countP
          isCutCall = 2
    ∧ (∀ fs : FS, ∀ n ∈ exportNames "out" ".mp4"
          [⟨⟨0, 0, 0, 0⟩, ⟨0, 0, 1, 0⟩⟩, ⟨⟨0, 0, 2, 0⟩, ⟨0, 0, 2, 500⟩⟩],
        (runEvents (fun _ => true) true
          (exportCutEvents "in.mp4" "out" ".mp4"
              [⟨⟨0, 0, 0, 0⟩, ⟨0, 0, 1, 0⟩⟩, ⟨⟨0, 0, 2, 0⟩, ⟨0, 0, 2, 500⟩⟩]
            ++ joinVideos (exportNames "out" ".mp4"
              [⟨⟨0, 0, 0, 0⟩, ⟨0, 0, 1, 0⟩⟩, ⟨⟨0, 0, 2, 0⟩, ⟨0, 0, 2, 500⟩⟩])
              ("out" ++ ".mp4")) fs).files n = false)
    ∧ (∀ fs : FS, ("out" ++ ".mp4") ∉ exportNames "out" ".mp4"
          [⟨⟨0, 0, 0, 0⟩, ⟨0, 0, 1, 0⟩⟩, ⟨⟨0, 0, 2, 0⟩, ⟨0, 0, 2, 500⟩⟩] →
        (runEvents (fun _ => true) true
          (exportCutEvents "in.mp4" "out" ".mp4"
              [⟨⟨0, 0, 0, 0⟩, ⟨0, 0, 1, 0⟩⟩, ⟨⟨0, 0, 2, 0⟩, ⟨0, 0, 2, 500⟩⟩]
            ++ joinVideos (exportNames "out" ".mp4"
              [⟨⟨0, 0, 0, 0⟩, ⟨0, 0, 1, 0⟩⟩, ⟨⟨0, 0, 2, 0⟩, ⟨0, 0, 2, 500⟩⟩])
              ("out" ++ ".mp4")) fs).files ("out" ++ ".mp4") = true) :=
  multi_region_export "in.mp4" "out" ".mp4"
    [⟨⟨0, 0, 0, 0⟩, ⟨0, 0, 1, 0⟩⟩, ⟨⟨0, 0, 2, 0⟩, ⟨0, 0, 2, 500⟩⟩] (by decide)

/-! ## C1: a failing trim does not stop the pipeline -/

/-- C1, counterexample to the claim as stated, at the claim's own scenario —
regions `[0,1000]` and `[2000,2500]` with the second trim's backend call
failing: `cutVideo` never inspects any backend outcome (no call's return value
is read anywhere in vidcutter.py:480-522), so its call sequence is a function
of the timeline alone.  The trace below is therefore what the pipeline issues
*whatever* the trim outcomes; it contains a `videoService.join` (the claim
requires none after a failed trim), and the overall result is success, not a
`BackendFailure` carrying the failed step. -/
theorem export_continues_after_failed_trim :
    cutVideo ⟨[⟨⟨0, 0, 0, 0⟩, some ⟨0, 0, 1, 0⟩⟩,
        ⟨⟨0, 0, 2, 0⟩, some ⟨0, 0, 2, 500⟩⟩], false, true⟩ "in.mp4" "out" ".mp4"
      = .ok [.cut "in.mp4" "out_01.mp4" "00:00:00" "00:00:01",
             .cut "in.mp4" "out_02.mp4" "00:00:02" "00:00:00",
             .writeList ["out_01.mp4", "out_02.mp4"],
             .join "out.mp4",
             .removeListFile,
             .removeFile "out_01.mp4",
             .removeFile "out_02.mp4"]
    ∧ Event.join "out.mp4" ∈
        [Event.cut "in.mp4" "out_01.mp4" "00:00:00" "00:00:01",
         Event.cut "in.mp4" "out_02.mp4" "00:00:02" "00:00:00",
         Event.writeList ["out_01.mp4", "out_02.mp4"],
         Event.join "out.mp4",
         Event.removeListFile,
         Event.removeFile "out_01.mp4",
         Event.removeFile "out_02.mp4"] := by
  constructor
  · have hd1 : deltaToQTime ((QTime.msecsTo ⟨0, 0, 0, 0⟩ ⟨0, 0, 1, 0⟩).toNat) = ⟨0, 0, 1, 0⟩ := by
      rw [show (QTime.msecsTo ⟨0, 0, 0, 0⟩ ⟨0, 0, 1, 0⟩).toNat = 1000 from rfl, deltaToQTime_eq]
    have hd2 : deltaToQTime ((QTime.msecsTo ⟨0, 0, 2, 0⟩ ⟨0, 0, 2, 500⟩).toNat)
        = ⟨0, 0, 0, 500⟩ := by
      rw [show (QTime.msecsTo ⟨0, 0, 2, 0⟩ ⟨0, 0, 2, 500⟩).toNat = 500 from rfl, deltaToQTime_eq]
    simp [cutVideo, trimClips, joinVideos, hd1, hd2,
      show timeToString ⟨0, 0, 0, 0⟩ = "00:00:00" from rfl,
      show timeToString ⟨0, 0, 1, 0⟩ = "00:00:01" from rfl,
      show timeToString ⟨0, 0, 2, 0⟩ = "00:00:02" from rfl,
      show timeToString ⟨0, 0, 0, 500⟩ = "00:00:00" from rfl,
      show intermName "out" ".mp4" 1 = "out_01.mp4" from by decide,
      show intermName "out" ".mp4" 2 = "out_02.mp4" from by decide,
      show ("out" ++ ".mp4" : String) = "out.mp4" from rfl]
  · simp

/-- C1, amended: the pipeline never detects a trim failure — it issues one
trim per region and then the concatenate (two or more regions) or the
delete-and-rename promotion (one region) exactly as on success, and reports
success; no cleanup is triggered *by* a failure and no `BackendFailure` (with
or without a step index) is ever returned, because no backend call's outcome
is inspected. -/
theorem export_ignores_trim_outcomes (source file ext : String)
    (clips : List (QTime × QTime)) (h : clips ≠ []) :
    ∃ evs, cutVideo ⟨clips.map (fun p => ⟨p.1, some p.2⟩), false, true⟩ source file ext
        = .ok evs
      ∧ evs.countP isCutCall = clips.length
      ∧ (2 ≤ clips.length → Event.join (file ++ ext) ∈ evs) := by
  have hone : 1 ≤ clips.length := List.length_pos.mpr h
  have hempty : (clips.map (fun p => (⟨p.1, some p.2⟩ : Clip))).isEmpty = false := by
    cases clips with
    | nil => exact absurd rfl h
    | cons a t => rfl
  have hlen : (exportNames file ext clips).length = clips.length := by
    simp [exportNames]
  have hcount : (exportCutEvents source file ext clips).countP isCutCall = clips.length := by
    simp [exportCutEvents, List.countP_map, Function.comp_def, isCutCall]
  by_cases h2 : 2 ≤ clips.length
  · refine ⟨exportCutEvents source file ext clips
        ++ joinVideos (exportNames file ext clips) (file ++ ext), ?_, ?_, fun _ => ?_⟩
    · simp only [cutVideo, hempty, Bool.false_eq_true, if_false, trimClips_closed_one]
      rw [if_pos (by omega : (exportNames file ext clips).length > 1)]
    · rw [List.countP_append, hcount]
      have hz : (joinVideos (exportNames file ext clips) (file ++ ext)).countP isCutCall
          = 0 := by
        simp [joinVideos, List.countP_append, List.countP_map, Function.comp_def,
          isCutCall, List.countP_cons]
      rw [hz]
      omega
    · refine List.mem_append_right _ ?_
      simp [joinVideos]
  · refine ⟨exportCutEvents source file ext clips
        ++ [.removeFile (file ++ ext),
            .rename ((exportNames file ext clips).getLastD "") (file ++ ext)], ?_, ?_, ?_⟩
    · simp only [cutVideo, hempty, Bool.false_eq_true, if_false, trimClips_closed_one]
      rw [if_neg (by omega : ¬((exportNames file ext clips).length > 1))]
    · rw [List.countP_append, hcount]
      simp [isCutCall, List.countP_cons]
    · intro habs
      omega

/-- C1, witness for the amended statement: the two-region scenario completes
with two trims and a join, reporting success. -/
theorem export_ignores_trim_outcomes_witness :
    ∃ evs, cutVideo ⟨[(⟨⟨0, 0, 0, 0⟩, ⟨0, 0, 1, 0⟩⟩ : QTime × QTime),
          ⟨⟨0, 0, 2, 0⟩, ⟨0, 0, 2, 500⟩⟩].map (fun p => ⟨p.1, some p.2⟩), false, true⟩
          "in.mp4" "out" ".mp4" = .ok evs
      ∧ evs.countP isCutCall
          = ([(⟨⟨0, 0, 0, 0⟩, ⟨0, 0, 1, 0⟩⟩ : QTime × QTime),
              ⟨⟨0, 0, 2, 0⟩, ⟨0, 0, 2, 500⟩⟩] : List (QTime × QTime)).length
      ∧ (2 ≤ ([(⟨⟨0, 0, 0, 0⟩, ⟨0, 0, 1, 0⟩⟩ : QTime × QTime),
              ⟨⟨0, 0, 2, 0⟩, ⟨0, 0, 2, 500⟩⟩] : List (QTime × QTime)).length →
          Event.join ("out" ++ ".mp4") ∈ evs) :=
  export_ignores_trim_outcomes "in.mp4" "out" ".mp4"
    [⟨⟨0, 0, 0, 0⟩, ⟨0, 0, 1, 0⟩⟩, ⟨⟨0, 0, 2, 0⟩, ⟨0, 0, 2, 500⟩⟩] (by decide)

end Vidcutter
